import Mathlib

/-!
# Verification of `codebase_concatenator.py`

A shallow embedding of the concatenator pipeline (walk → filter → sort →
read → annotate → write) and proofs about it.

Modelling conventions:
* A file of the scanned tree is a `FileEntry`: its path components relative
  to the scan root, the raw bytes seen by the text sniffer (`none` models an
  I/O error on open/read) and the decoded text seen by the content read
  (`Except.error e` models an I/O error with message `e`).
* The walked tree is a `List FileEntry` in `os.walk` enumeration order.
* Strings are Lean `String`s; Python `str` comparison is plain code-point
  lexicographic comparison (`lexLt` below). CPython `PurePath` ordering
  compares the case-normalized path-component tuples (`_cparts` on 3.11,
  `_parts_normcase` on 3.12+; case normalization is the identity on POSIX):
  lexicographic on the parts, each part compared as a string
  (`partsLt`/`partsLe` below).
* Streams are modelled as the list of strings written to them, in order.
-/

namespace Concat

/-- ASCII lowercasing of one character, as `str.lower` acts on ASCII. -/
def asciiLower (c : Char) : Char :=
  if 'A' ≤ c ∧ c ≤ 'Z' then Char.ofNat (c.toNat + 32) else c

/-- `str.lower` (restricted to its ASCII action, which covers every
extension string appearing in the program). -/
def lowerStr (s : String) : String :=
  String.mk (s.toList.map asciiLower)

/-- `str.startswith`, computed structurally on the character lists (the
core `String.startsWith` is defined by well-founded recursion on byte
positions, which the kernel cannot evaluate). -/
def startsWithB (s pre : String) : Bool := pre.toList.isPrefixOf s.toList

/-- `str.endswith`, computed structurally on the character lists. -/
def endsWithB (s suf : String) : Bool := suf.toList.isSuffixOf s.toList

/-- Index of the last occurrence of `c` in the list, `str.rfind`. -/
def rlast (c : Char) : List Char → Option Nat
  | [] => none
  | x :: xs =>
    match rlast c xs with
    | some i => some (i + 1)
    | none => if x = c then some 0 else none

/-- `PurePath.suffix` of a final path component: the substring from the last
dot, unless the dot is the first character or the last one. -/
def pySuffix (name : String) : String :=
  match rlast '.' name.toList with
  | none => ""
  | some i =>
    if 0 < i ∧ i + 1 < name.toList.length then String.mk (name.toList.drop i) else ""

/-- `DEFAULT_EXTENSIONS` (lines 14–18). -/
def DEFAULT_EXTENSIONS : List String :=
  [".py", ".js", ".jsx", ".ts", ".tsx", ".json", ".md", ".yaml", ".yml",
   ".html", ".css", ".scss", ".sass", ".less", ".sql", ".sh", ".bat", ".ps1",
   ".dockerfile", ".gitignore", ".gitattributes", ".editorconfig"]

/-- `IGNORE_PATTERNS` (lines 21–39); the Python set literal contains
`dist`, `build` and `.env` twice, deduplicated here. -/
def IGNORE_PATTERNS : List String :=
  ["__pycache__", ".pytest_cache", "env", "venv", ".venv", ".env", "ENV",
   "env.bak", "venv.bak", ".Python", "build", "develop-eggs", "dist",
   "downloads", "eggs", ".eggs", "lib", "lib64", "parts", "sdist", "var",
   "wheels", "*.egg-info", ".installed.cfg", "*.egg", "MANIFEST",
   "node_modules", ".npm", ".yarn", "yarn-error.log", ".pnp", ".pnp.js",
   "coverage", ".nyc_output", ".grunt", "bower_components", ".bower-cache",
   ".sass-cache", ".cache", ".parcel-cache", ".next", ".nuxt", "out",
   ".git", ".svn", ".hg", ".DS_Store", "Thumbs.db", ".vscode", ".idea",
   ".vs", "*.swp", "*.swo", "*~", ".tmp", ".temp", "logs", "*.log",
   ".env.local", ".env.development.local", ".env.test.local",
   ".env.production.local"]

/-- `IGNORE_FILES` (lines 42–46). -/
def IGNORE_FILES : List String :=
  [".env", ".env.local", ".env.development", ".env.production", ".env.test",
   ".env.development.local", ".env.test.local", ".env.production.local",
   "package-lock.json", "yarn.lock", "poetry.lock", "Pipfile.lock"]

/-- The dotfile allow-list of `should_ignore` (line 71). -/
def ALLOWED_DOTFILES : List String := [".gitignore", ".gitattributes", ".editorconfig"]

/-- `path.name` of a relative path given by its components. -/
def pathName (parts : List String) : String := (parts.getLast?).getD ""

/-- `should_ignore(path, base_path)` (lines 63–83), evaluated on the
components of `path.relative_to(base_path)`. -/
def should_ignore (parts : List String) : Bool :=
  (parts.any fun part =>
      (decide (part ∈ IGNORE_PATTERNS) || startsWithB part (".")) &&
      decide (part ∉ ALLOWED_DOTFILES))
  || decide (pathName parts ∈ IGNORE_FILES)
  || (IGNORE_PATTERNS.any fun pat =>
      pat.toList.contains '*' && startsWithB pat ("*") &&
        endsWithB (pathName parts) (String.mk (pat.toList.drop 1)))

/-- `is_text_file` (lines 85–94) on the result of opening the file in binary
mode: `none` models the `except` branch (any I/O failure). The function is
total: no exception can escape it. -/
def is_text_file (bytes : Option (List Nat)) : Bool :=
  match bytes with
  | none => false
  | some bs => !decide ((0 : Nat) ∈ bs.take 1024)

deriving instance DecidableEq for Except

/-- A file of the walked tree. -/
structure FileEntry where
  /-- Path components relative to the scan root; the last one is the name. -/
  parts : List String
  /-- Raw bytes seen by `is_text_file`; `none` models an I/O error. -/
  bytes : Option (List Nat)
  /-- Decoded text seen by the content read (UTF-8, errors ignored);
  `Except.error e` models an I/O error carrying message `e`. -/
  text : Except String String
  deriving DecidableEq, Repr

/-- Relative paths of the proper ancestor directories of a file,
shallowest first. -/
def ancestorDirs (parts : List String) : List (List String) :=
  (List.range (parts.length - 1)).map fun k => parts.take (k + 1)

/-- `os.walk` reaches a file iff none of its ancestor directories was pruned
by the `dirs[:] = ...` filter (line 123). -/
def walkReaches (parts : List String) : Bool :=
  (ancestorDirs parts).all fun d => !should_ignore d

/-- The per-file filter of the traversal loop (lines 129–138): ignore rules,
then the extension filter, then the text sniffer. -/
def keepFile (exts : List String) (f : FileEntry) : Bool :=
  !should_ignore f.parts &&
  !(!exts.isEmpty && decide (lowerStr (pySuffix (pathName f.parts)) ∉ exts)) &&
  is_text_file f.bytes

/-- `files_to_process` before sorting (lines 117–140): the files of the tree,
in walk order, that are reached and pass every filter. -/
def collectFiles (tree : List FileEntry) (exts : List String) : List FileEntry :=
  tree.filter fun f => walkReaches f.parts && keepFile exts f

/-- `str(rel_path)` on POSIX. -/
def relStr (parts : List String) : String := String.intercalate ("/") parts

/-- `str(file_path)`: the absolute path string, as interpolated into the
warning messages. -/
def fullPath (dir : String) (f : FileEntry) : String := dir ++ "/" ++ relStr f.parts

/-- Strict code-point lexicographic comparison of character lists: exactly
Python's `str.__lt__` (and `list.__lt__`), and exactly the `List Char` order
underlying Lean's `String` order. Structural, so the kernel can evaluate it. -/
def lexLt : List Char → List Char → Bool
  | [], [] => false
  | [], _ :: _ => true
  | _ :: _, [] => false
  | a :: as, b :: bs => if a < b then true else if b < a then false else lexLt as bs

/-- The companion non-strict comparison. -/
def lexLe : List Char → List Char → Bool
  | [], _ => true
  | _ :: _, [] => false
  | a :: as, b :: bs => if a < b then true else if b < a then false else lexLe as bs

/-- Ordinal (code-point) string comparison, strict: Python `str.__lt__`. -/
def strLt (a b : String) : Bool := lexLt a.data b.data

/-- Strict lexicographic comparison of path-component tuples: exactly
CPython `PurePath.__lt__`, which compares the case-normalized parts tuples
(case normalization is the identity on POSIX), component by component with
Python string comparison. -/
def partsLt : List String → List String → Bool
  | [], [] => false
  | [], _ :: _ => true
  | _ :: _, [] => false
  | a :: as, b :: bs =>
    if strLt a b = true then true
    else if strLt b a = true then false
    else partsLt as bs

/-- The companion non-strict tuple comparison, used for the ascending sort. -/
def partsLe : List String → List String → Bool
  | [], _ => true
  | _ :: _, [] => false
  | a :: as, b :: bs =>
    if strLt a b = true then true
    else if strLt b a = true then false
    else partsLe as bs

/-- `files_to_process.sort()` (line 143): ascending CPython `Path` order,
the lexicographic comparison of the component tuples. The sorted paths are
absolute, but they all extend the same root components, and prepending a
shared component never changes the comparison (`partsLe_cons_same` below),
so the relative component tuples are compared. -/
def sortedCandidates (tree : List FileEntry) (exts : List String) :
    List FileEntry :=
  List.insertionSort (fun a b => partsLe a.parts b.parts = true)
    (collectFiles tree exts)

/-- `get_comment_style` (lines 48–61); only the suffix of the final path
component is consulted. -/
def get_comment_style (name : String) : String :=
  let ext := lowerStr (pySuffix name)
  if ext ∈ [".py", ".sh", ".yml", ".yaml", ".dockerfile"] then "#"
  else if ext ∈ [".js", ".jsx", ".ts", ".tsx", ".css", ".scss", ".sass", ".less", ".sql"] then "//"
  else if ext ∈ [".html", ".xml"] then "<!-- \x7b\x7d -->"
  else if ext ∈ [".md", ".txt"] then "#"
  else "#"

/-- `str.format` with a single positional `\x7b\x7d` hole: replaces the
first occurrence of the hole by `arg`. -/
def formatOne (arg : String) : List Char → List Char
  | [] => []
  | c :: rest =>
    if c = '\x7b' then
      match rest with
      | d :: rest2 => if d = '\x7d' then arg.toList ++ rest2 else c :: formatOne arg rest
      | [] => [c]
    else c :: formatOne arg rest

/-- The header line for one candidate (lines 155–161). -/
def headerFor (parts : List String) : String :=
  let comment_style := get_comment_style (pathName parts)
  if comment_style = "<!-- \x7b\x7d -->" then
    String.mk (formatOne (" File: " ++ relStr parts ++ " ") comment_style.toList)
  else
    comment_style ++ " File: " ++ relStr parts

/-- One iteration of the emit loop (lines 153–182): the strings written to
the output stream, in order, and the warning when the content read failed.
The header is written before the content file is opened, so a failing read
leaves the bare header line in the output. -/
def processFile (dir : String) (f : FileEntry) : List String × Option String :=
  let header := headerFor f.parts
  match f.text with
  | Except.error e =>
      ([header ++ "\n"],
       some ("Warning: Could not process " ++ fullPath dir f ++ ": " ++ e))
  | Except.ok content =>
      ([header ++ "\n", content] ++
        (if content ≠ "" ∧ ¬endsWithB content ("\n") then ["\n"] else []) ++ ["\n"],
       none)

/-- The loop over the sorted candidates (lines 152–182), `i` the 1-based
index of the next candidate. Returns (output-stream writes, diagnostic-stream
writes). A failed candidate produces its warning and the loop continues; the
every-10-files progress message is reached only on success, as in the source. -/
def emitLoop (dir : String) (total : Nat) : Nat → List FileEntry → List String × List String
  | _, [] => ([], [])
  | i, f :: rest =>
    let step := processFile dir f
    let tail := emitLoop dir total (i + 1) rest
    let diagHere :=
      match step.2 with
      | some w => [w]
      | none =>
        if i % 10 = 0 then
          ["Processed " ++ toString i ++ "/" ++ toString total ++ " files..."]
        else []
    (step.1 ++ tail.1, diagHere ++ tail.2)

/-- Line 106: `extensions = extensions or DEFAULT_EXTENSIONS`. Both `None`
and an empty set are falsy, so both are replaced by the default set. -/
def effectiveExts (extensions : Option (List String)) : List String :=
  match extensions with
  | none => DEFAULT_EXTENSIONS
  | some l => if l.isEmpty then DEFAULT_EXTENSIONS else l

/-- Observable outcome of one `concatenate_files` run. -/
structure RunResult where
  /-- The boolean return value. -/
  ok : Bool
  /-- Writes to the primary output stream, in order. -/
  output : List String
  /-- Writes to the diagnostic (stderr) stream, in order. -/
  diag : List String
  /-- Whether the named destination was opened (line 146). -/
  outputOpened : Bool
  deriving DecidableEq, Repr

/-- `concatenate_files` (lines 96–189). `dirExists` and `dirIsDir` model the
two up-front checks; `outputFileGiven` models `output_file is not None`;
`extensions = none` models passing `None`, which line 106
(`extensions = extensions or DEFAULT_EXTENSIONS`) replaces by the default
set, as it does an empty set. -/
def concatenate_files (dirExists dirIsDir : Bool) (dir : String)
    (outputFileGiven : Bool) (tree : List FileEntry)
    (extensions : Option (List String)) : RunResult :=
  let exts := effectiveExts extensions
  if !dirExists then
    ⟨false, [], ["Error: Directory \x27" ++ dir ++ "\x27 does not exist."], false⟩
  else if !dirIsDir then
    ⟨false, [], ["Error: \x27" ++ dir ++ "\x27 is not a directory."], false⟩
  else
    let files := sortedCandidates tree exts
    let total := files.length
    let loop := emitLoop dir total 1 files
    ⟨true, loop.1,
      ("Processing " ++ toString total ++ " files from \x27" ++ dir ++ "\x27...") ::
        (loop.2 ++ ["Successfully processed " ++ toString total ++ " files."]),
      outputFileGiven⟩

/-- The CLI choice of the extension set (lines 216–221): `--all-ext` passes
`None`; `--ext` normalizes each entry to carry a leading dot. -/
def chooseExtensions (allExt : Bool) (extArg : Option (List String)) : Option (List String) :=
  if allExt then none
  else
    match extArg with
    | some l =>
      if l.isEmpty then some DEFAULT_EXTENSIONS
      else some (l.map fun e => if e.startsWith (".") then e else "." ++ e)
    | none => some DEFAULT_EXTENSIONS

/-- `main`'s exit code (lines 224–225): 0 when `concatenate_files` returned
`True`, 1 otherwise. -/
def mainExit (dirExists dirIsDir : Bool) (dir : String) (outputFileGiven : Bool)
    (tree : List FileEntry) (allExt : Bool) (extArg : Option (List String)) : Nat :=
  if (concatenate_files dirExists dirIsDir dir outputFileGiven tree
        (chooseExtensions allExt extArg)).ok then 0 else 1


/-! ## Helper lemmas -/

theorem formatOne_template (arg : String) :
    String.mk (formatOne arg ("<!-- \x7b\x7d -->").toList) = "<!-- " ++ arg ++ " -->" := by
  obtain ⟨d⟩ := arg
  apply String.ext
  show '<' :: '!' :: '-' :: '-' :: ' ' :: (d ++ [' ', '-', '-', '>']) =
      (['<', '!', '-', '-', ' '] ++ d) ++ [' ', '-', '-', '>']
  simp

theorem string_glue (p : String) :
    "<!-- " ++ (" File: " ++ p ++ " ") ++ " -->" = "<!--  File: " ++ p ++ "  -->" := by
  obtain ⟨d⟩ := p
  apply String.ext
  show (['<', '!', '-', '-', ' '] ++
        (([' ', 'F', 'i', 'l', 'e', ':', ' '] ++ d) ++ [' '])) ++ [' ', '-', '-', '>'] =
      (['<', '!', '-', '-', ' ', ' ', 'F', 'i', 'l', 'e', ':', ' '] ++ d) ++
        [' ', ' ', '-', '-', '>']
  simp

theorem get_comment_style_cases (name : String) :
    get_comment_style name = "#" ∨ get_comment_style name = "//" ∨
      get_comment_style name = "<!-- \x7b\x7d -->" := by
  rw [get_comment_style]
  split_ifs <;> simp

theorem get_comment_style_html_iff (name : String) :
    get_comment_style name = "<!-- \x7b\x7d -->" ↔
      lowerStr (pySuffix name) = ".html" ∨ lowerStr (pySuffix name) = ".xml" := by
  rw [get_comment_style]
  split_ifs with h1 h2 h3 h4
  · exact iff_of_false (by decide)
      (by rintro (h | h) <;> rw [h] at h1 <;> exact absurd h1 (by decide))
  · exact iff_of_false (by decide)
      (by rintro (h | h) <;> rw [h] at h2 <;> exact absurd h2 (by decide))
  · exact iff_of_true rfl (by simpa using h3)
  · exact iff_of_false (by decide)
      (by rintro (h | h) <;> exact h3 (by rw [h]; decide))
  · exact iff_of_false (by decide)
      (by rintro (h | h) <;> exact h3 (by rw [h]; decide))

theorem headerFor_html (parts : List String)
    (h : get_comment_style (pathName parts) = "<!-- \x7b\x7d -->") :
    headerFor parts = "<!--  File: " ++ relStr parts ++ "  -->" := by
  simp only [headerFor, h, if_pos]
  rw [formatOne_template, string_glue]

theorem length_sortedCandidates (tree : List FileEntry) (exts : List String) :
    (sortedCandidates tree exts).length = (collectFiles tree exts).length :=
  (List.perm_insertionSort _ _).length_eq

theorem final_summary (dir : String) (og : Bool) (tree : List FileEntry)
    (extensions : Option (List String)) :
    (concatenate_files true true dir og tree extensions).diag.getLast? =
      some ("Successfully processed " ++
        toString (collectFiles tree (effectiveExts extensions)).length ++ " files.") := by
  simp only [concatenate_files, length_sortedCandidates, Bool.not_true,
    Bool.false_eq_true, if_false]
  rw [← List.cons_append, List.getLast?_concat]

/-! ## Claims -/

/-- C1 (code bug): `--all-ext` passes `extensions = None` (help text:
"Process all text files regardless of extension"), but line 106 replaces
`None` by `DEFAULT_EXTENSIONS`, so extension filtering is **not** disabled:
the text file `notes.rst`, which survives the ignore rules and the sniffer,
produces no output in an `--all-ext` run. -/
theorem C1_allExt_does_not_disable_filter :
    chooseExtensions true none = none ∧
    effectiveExts none = DEFAULT_EXTENSIONS ∧
    should_ignore [("notes.rst")] = false ∧
    is_text_file (some [104, 105]) = true ∧
    (concatenate_files true true ("/r") false
        [⟨[("notes.rst")], some [104, 105], Except.ok ("hi")⟩]
        (chooseExtensions true none)).output = [] :=
  ⟨rfl, rfl, by decide, rfl, by decide⟩

/-- C2 (code bug): a `.gitignore` file survives the ignore rules (it is
allow-listed) and the sniffer, but its `Path.suffix` is the empty string, and
because line 106 turns the `--all-ext` `None` back into `DEFAULT_EXTENSIONS`
it is excluded by the extension filter in **every** CLI run — with
`--all-ext` as well as with the defaults — contrary to the claim that
`--all-ext` includes it. -/
theorem C2_gitignore_excluded_even_with_allExt :
    should_ignore [(".gitignore")] = false ∧
    is_text_file (some [42]) = true ∧
    pySuffix (".gitignore") = "" ∧
    (concatenate_files true true ("/r") false
        [⟨[(".gitignore")], some [42], Except.ok ("x")⟩]
        (chooseExtensions true none)).output = [] ∧
    (concatenate_files true true ("/r") false
        [⟨[(".gitignore")], some [42], Except.ok ("x")⟩]
        (chooseExtensions false none)).output = [] :=
  ⟨by decide, rfl, rfl, by decide, by decide⟩

/-- C3 (counterexample): for `a.html` the emitted header is
`<!--  File: a.html  -->` — the `format` argument ` File: a.html ` carries
its own surrounding spaces into the template `<!-- \x7b\x7d -->`, so the
delimiters are followed/preceded by **two** spaces, not the single spaces the
claim states. -/
theorem C3_counterexample :
    headerFor [("a.html")] = "<!--  File: a.html  -->" ∧
    ¬headerFor [("a.html")] = "<!-- File: a.html -->" :=
  ⟨rfl, by decide⟩

/-- C3 (amended): for extensions `.html`/`.xml` the header line is exactly
`<!--  File: <relpath>  -->` (two spaces inside each comment delimiter); for
every other extension it is `<style> File: <relpath>` where the style is `#`
or `//` according to the extension mapping, `#` being the default. -/
theorem C3_header_format (parts : List String) :
    (lowerStr (pySuffix (pathName parts)) = ".html" ∨
        lowerStr (pySuffix (pathName parts)) = ".xml" →
      headerFor parts = "<!--  File: " ++ relStr parts ++ "  -->") ∧
    (lowerStr (pySuffix (pathName parts)) ≠ ".html" ∧
        lowerStr (pySuffix (pathName parts)) ≠ ".xml" →
      (get_comment_style (pathName parts) = "#" ∨
        get_comment_style (pathName parts) = "//") ∧
      headerFor parts = get_comment_style (pathName parts) ++ " File: " ++ relStr parts) := by
  constructor
  · intro h
    exact headerFor_html parts ((get_comment_style_html_iff _).mpr h)
  · rintro ⟨h1, h2⟩
    have hstyle : ¬get_comment_style (pathName parts) = "<!-- \x7b\x7d -->" := by
      rw [get_comment_style_html_iff]
      rintro (h | h) <;> contradiction
    refine ⟨?_, ?_⟩
    · rcases get_comment_style_cases (pathName parts) with h | h | h
      · exact Or.inl h
      · exact Or.inr h
      · exact absurd h hstyle
    · simp only [headerFor, if_neg hstyle]

/-- C3 witness. -/
theorem C3_header_format_witness :
    headerFor [("a.xml")] = "<!--  File: a.xml  -->" ∧
    headerFor [("src"), ("x.py")] = "# File: src/x.py" :=
  ⟨(C3_header_format [("a.xml")]).1 (Or.inr rfl),
   ((C3_header_format [("src"), ("x.py")]).2 ⟨by decide, by decide⟩).2⟩

/-- C6: the text sniffer is a total function of the read result (no
exception can escape it); an I/O failure (`none`) classifies the file as
non-text, a null byte among the first 1024 bytes classifies it as binary,
and a file classified non-text is never among the candidates, for any tree
and any extension filter. -/
theorem C6_sniffer_classification (f : FileEntry) (tree : List FileEntry)
    (exts : List String) :
    (f.bytes = none → is_text_file f.bytes = false) ∧
    (∀ bs, f.bytes = some bs → (0 : Nat) ∈ bs.take 1024 →
      is_text_file f.bytes = false) ∧
    (is_text_file f.bytes = false → f ∉ collectFiles tree exts) := by
  refine ⟨?_, ?_, ?_⟩
  · intro h; rw [h]; rfl
  · intro bs h hmem; rw [h]; simp [is_text_file, hmem]
  · intro h hmem
    rw [collectFiles, List.mem_filter, keepFile] at hmem
    simp [h] at hmem

/-- C6 witness. -/
theorem C6_sniffer_classification_witness :
    is_text_file (Option.none : Option (List Nat)) = false ∧
    is_text_file (some [65, 0, 66]) = false ∧
    (⟨[("a.py")], some [65, 0, 66], Except.ok ("x")⟩ : FileEntry) ∉
      collectFiles [⟨[("a.py")], some [65, 0, 66], Except.ok ("x")⟩] [(".py")] := by
  refine ⟨?_, ?_, ?_⟩
  · exact (C6_sniffer_classification ⟨[], none, Except.ok ("")⟩ [] []).1 rfl
  · exact (C6_sniffer_classification ⟨[("a.py")], some [65, 0, 66], Except.ok ("x")⟩
      [] []).2.1 [65, 0, 66] rfl (by decide)
  · exact (C6_sniffer_classification ⟨[("a.py")], some [65, 0, 66], Except.ok ("x")⟩
      [⟨[("a.py")], some [65, 0, 66], Except.ok ("x")⟩] [(".py")]).2.2 rfl

/-- C7: for every successfully read candidate the emit loop writes exactly
one header line, then the content verbatim, then one appended newline exactly
when the content is non-empty and does not already end in a newline, then one
blank separator line; no warning is produced for it. -/
theorem C7_block_shape (dir : String) (f : FileEntry) (c : String)
    (h : f.text = Except.ok c) :
    (processFile dir f).2 = none ∧
    (c = "" ∨ endsWithB c ("\n") = true →
      String.join (processFile dir f).1 = headerFor f.parts ++ "\n" ++ c ++ "\n") ∧
    (¬c = "" → endsWithB c ("\n") = false →
      String.join (processFile dir f).1 =
        headerFor f.parts ++ "\n" ++ c ++ "\n" ++ "\n") := by
  refine ⟨by simp [processFile, h], ?_, ?_⟩
  · intro hc
    have hcond : ¬(¬c = "" ∧ endsWithB c ("\n") = false) := by
      rcases hc with hc | hc
      · exact fun hh => hh.1 hc
      · exact fun hh => absurd hh.2 (by simp [hc])
    simp [processFile, h, hcond, String.join]
  · intro h1 h2
    have hcond : c ≠ "" ∧ ¬endsWithB c ("\n") := ⟨h1, by simp [h2]⟩
    simp [processFile, h, hcond, String.join]

/-- C7 witness. -/
theorem C7_block_shape_witness :
    String.join (processFile ("/r") ⟨[("a.py")], some [104], Except.ok ("hi")⟩).1 =
      headerFor [("a.py")] ++ "\n" ++ "hi" ++ "\n" ++ "\n" ∧
    String.join (processFile ("/r") ⟨[("b.py")], some [104], Except.ok ("ok\n")⟩).1 =
      headerFor [("b.py")] ++ "\n" ++ "ok\n" ++ "\n" :=
  ⟨(C7_block_shape ("/r") ⟨[("a.py")], some [104], Except.ok ("hi")⟩ ("hi") rfl).2.2
      (by decide) (by decide),
   (C7_block_shape ("/r") ⟨[("b.py")], some [104], Except.ok ("ok\n")⟩ ("ok\n") rfl).2.1
      (Or.inr (by decide))⟩

/-- C9: a missing target directory yields one diagnostic on the error
stream, exit code 1, no output and the destination never opened; a target
that is not a directory likewise (with its own message); in every other case
the exit code is 0. -/
theorem C9_exit_codes (dirExists dirIsDir : Bool) (dir : String) (og : Bool)
    (tree : List FileEntry) (allExt : Bool) (extArg : Option (List String)) :
    (dirExists = false →
      mainExit dirExists dirIsDir dir og tree allExt extArg = 1 ∧
      (concatenate_files dirExists dirIsDir dir og tree
          (chooseExtensions allExt extArg)).output = [] ∧
      (concatenate_files dirExists dirIsDir dir og tree
          (chooseExtensions allExt extArg)).outputOpened = false ∧
      (concatenate_files dirExists dirIsDir dir og tree
          (chooseExtensions allExt extArg)).diag =
        ["Error: Directory \x27" ++ dir ++ "\x27 does not exist."]) ∧
    (dirExists = true → dirIsDir = false →
      mainExit dirExists dirIsDir dir og tree allExt extArg = 1 ∧
      (concatenate_files dirExists dirIsDir dir og tree
          (chooseExtensions allExt extArg)).output = [] ∧
      (concatenate_files dirExists dirIsDir dir og tree
          (chooseExtensions allExt extArg)).outputOpened = false ∧
      (concatenate_files dirExists dirIsDir dir og tree
          (chooseExtensions allExt extArg)).diag =
        ["Error: \x27" ++ dir ++ "\x27 is not a directory."]) ∧
    (dirExists = true → dirIsDir = true →
      mainExit dirExists dirIsDir dir og tree allExt extArg = 0) := by
  refine ⟨fun h1 => ?_, fun h1 h2 => ?_, fun h1 h2 => ?_⟩
  · subst h1; exact ⟨rfl, rfl, rfl, rfl⟩
  · subst h1; subst h2; exact ⟨rfl, rfl, rfl, rfl⟩
  · subst h1; subst h2; rfl

/-- C9 witness. -/
theorem C9_exit_codes_witness :
    mainExit false true ("/r") true [] false none = 1 ∧
    mainExit true false ("/r") true [] false none = 1 ∧
    mainExit true true ("/r") true [] false none = 0 :=
  ⟨((C9_exit_codes false true ("/r") true [] false none).1 rfl).1,
   ((C9_exit_codes true false ("/r") true [] false none).2.1 rfl rfl).1,
   (C9_exit_codes true true ("/r") true [] false none).2.2 rfl rfl⟩

/-- C10: the final diagnostic line always reports the number of candidates,
a total computed from the candidate list before the emission loop runs;
replacing every candidate file's read outcome (for instance making every
read fail) does not change the reported count, so files skipped by per-file
errors are still counted. -/
theorem C10_summary_counts_candidates (dir : String) (og : Bool)
    (tree : List FileEntry) (extensions : Option (List String)) :
    (concatenate_files true true dir og tree extensions).diag.getLast? =
      some ("Successfully processed " ++
        toString (collectFiles tree (effectiveExts extensions)).length ++ " files.") ∧
    ∀ g : FileEntry → Except String String,
      (concatenate_files true true dir og
          (tree.map fun f => ⟨f.parts, f.bytes, g f⟩) extensions).diag.getLast? =
        (concatenate_files true true dir og tree extensions).diag.getLast? := by
  refine ⟨final_summary dir og tree extensions, fun g => ?_⟩
  rw [final_summary, final_summary]
  have hcoll : collectFiles (tree.map fun f => ⟨f.parts, f.bytes, g f⟩)
        (effectiveExts extensions) =
      (collectFiles tree (effectiveExts extensions)).map
        fun f => ⟨f.parts, f.bytes, g f⟩ := by
    rw [collectFiles, collectFiles, List.filter_map]
    congr 1
  rw [hcoll, List.length_map]

/-! ## Properties of the ordinal comparison and of the sort -/

theorem lexLe_total : ∀ a b : List Char, lexLe a b = true ∨ lexLe b a = true
  | [], _ => Or.inl rfl
  | _ :: _, [] => Or.inr rfl
  | a :: as, b :: bs => by
    rcases lt_trichotomy a b with h | h | h
    · exact Or.inl (by simp [lexLe, h])
    · subst h
      rcases lexLe_total as bs with ih | ih
      · exact Or.inl (by simp [lexLe, lt_irrefl, ih])
      · exact Or.inr (by simp [lexLe, lt_irrefl, ih])
    · exact Or.inr (by simp [lexLe, h])

theorem lexLe_trans : ∀ a b c : List Char,
    lexLe a b = true → lexLe b c = true → lexLe a c = true
  | [], _, _, _, _ => rfl
  | _ :: _, [], _, h, _ => by simp [lexLe] at h
  | _ :: _, _ :: _, [], _, h => by simp [lexLe] at h
  | a :: as, b :: bs, c :: cs, h1, h2 => by
    simp only [lexLe] at h1 h2 ⊢
    rcases lt_trichotomy a b with hab | hab | hab
    · rcases lt_trichotomy b c with hbc | hbc | hbc
      · simp [lt_trans hab hbc]
      · subst hbc; simp [hab]
      · simp [asymm hbc, hbc] at h2
    · subst hab
      rcases lt_trichotomy a c with hac | hac | hac
      · simp [hac]
      · subst hac
        simp only [lt_irrefl, if_false, ite_self, reduceIte] at h1 h2 ⊢
        exact lexLe_trans as bs cs h1 h2
      · simp [asymm hac, hac] at h2
    · simp [asymm hab, hab] at h1

theorem lexLe_antisymm : ∀ a b : List Char,
    lexLe a b = true → lexLe b a = true → a = b
  | [], [], _, _ => rfl
  | [], _ :: _, _, h => by simp [lexLe] at h
  | _ :: _, [], h, _ => by simp [lexLe] at h
  | a :: as, b :: bs, h1, h2 => by
    rcases lt_trichotomy a b with h | h | h
    · simp [lexLe, asymm h, h] at h2
    · subst h
      simp only [lexLe, lt_irrefl, if_false, ite_self, reduceIte] at h1 h2
      rw [lexLe_antisymm as bs h1 h2]
    · simp [lexLe, asymm h, h] at h1

theorem lexLt_irrefl : ∀ a : List Char, lexLt a a = false
  | [] => rfl
  | a :: as => by simp [lexLt, lt_irrefl, lexLt_irrefl as]

theorem lexLt_le : ∀ a b : List Char, lexLt a b = true → lexLe a b = true
  | [], _, _ => rfl
  | _ :: _, [], h => by simp [lexLt] at h
  | a :: as, b :: bs, h => by
    simp only [lexLt] at h
    simp only [lexLe]
    rcases lt_trichotomy a b with hab | hab | hab
    · simp [hab]
    · subst hab
      simp only [lt_irrefl, if_false, ite_self, reduceIte] at h ⊢
      exact lexLt_le as bs h
    · simp [asymm hab, hab] at h

theorem lexLt_asymm {a b : List Char} (h1 : lexLt a b = true)
    (h2 : lexLt b a = true) : False := by
  have hab := lexLe_antisymm a b (lexLt_le _ _ h1) (lexLt_le _ _ h2)
  rw [hab, lexLt_irrefl] at h1
  cases h1

/-- `lexLt` is exactly the canonical lexicographic order `List.lt` on the
character lists (hence exactly code-point comparison of the strings). -/
theorem lexLt_iff : ∀ a b : List Char, lexLt a b = true ↔ List.lt a b
  | [], [] => by
    constructor
    · intro h; simp [lexLt] at h
    · intro h; cases h
  | [], b :: bs => ⟨fun _ => List.lt.nil b bs, fun _ => rfl⟩
  | _ :: _, [] => by
    constructor
    · intro h; simp [lexLt] at h
    · intro h; cases h
  | a :: as, b :: bs => by
    simp only [lexLt]
    rcases lt_trichotomy a b with h | h | h
    · simp only [h, if_pos]
      exact ⟨fun _ => List.lt.head as bs h, fun _ => trivial⟩
    · subst h
      simp only [lt_irrefl, if_false, ite_self, reduceIte]
      constructor
      · intro hh
        exact List.lt.tail (lt_irrefl a) (lt_irrefl a) ((lexLt_iff as bs).mp hh)
      · intro hh
        cases hh with
        | head _ _ hlt => exact absurd hlt (lt_irrefl a)
        | tail _ _ hlt => exact (lexLt_iff as bs).mpr hlt
    · constructor
      · intro hh
        rw [if_neg (asymm h), if_pos h] at hh
        cases hh
      · intro hh
        cases hh with
        | head _ _ hlt => exact absurd hlt (asymm h)
        | tail _ hnb _ => exact absurd h hnb

theorem lexLe_eq_not_lexLt : ∀ a b : List Char, lexLe a b = !lexLt b a
  | [], [] => rfl
  | [], _ :: _ => rfl
  | _ :: _, [] => rfl
  | a :: as, b :: bs => by
    simp only [lexLe, lexLt]
    rcases lt_trichotomy a b with h | h | h
    · simp [h, asymm h]
    · subst h
      simp only [lt_irrefl, if_false, ite_self, reduceIte]
      exact lexLe_eq_not_lexLt as bs
    · simp [h, asymm h]

theorem strLt_irrefl (a : String) : strLt a a = false := lexLt_irrefl a.data

theorem strLt_asymm_false {a b : String} (h : strLt a b = true) : strLt b a = false := by
  cases h2 : strLt b a
  · rfl
  · exact (lexLt_asymm h h2).elim

theorem strLt_trans {a b c : String} (h1 : strLt a b = true) (h2 : strLt b c = true) :
    strLt a c = true := by
  cases h3 : strLt a c
  · have h3x : lexLt a.data c.data = false := h3
    have hca : lexLe c.data a.data = true := by
      rw [lexLe_eq_not_lexLt, h3x]; rfl
    have hac : lexLe a.data c.data = true :=
      lexLe_trans _ _ _ (lexLt_le _ _ h1) (lexLt_le _ _ h2)
    have hce : a = c := String.ext (lexLe_antisymm _ _ hac hca)
    subst hce
    exact (lexLt_asymm h1 h2).elim
  · rfl

theorem str_eq_of_not_lt {a b : String} (h1 : strLt a b = false)
    (h2 : strLt b a = false) : a = b := by
  have h1x : lexLt a.data b.data = false := h1
  have h2x : lexLt b.data a.data = false := h2
  have hab : lexLe a.data b.data = true := by rw [lexLe_eq_not_lexLt, h2x]; rfl
  have hba : lexLe b.data a.data = true := by rw [lexLe_eq_not_lexLt, h1x]; rfl
  exact String.ext (lexLe_antisymm _ _ hab hba)

theorem str_trichotomy (a b : String) :
    strLt a b = true ∨ a = b ∨ strLt b a = true := by
  cases h1 : strLt a b
  · cases h2 : strLt b a
    · exact Or.inr (Or.inl (str_eq_of_not_lt h1 h2))
    · exact Or.inr (Or.inr rfl)
  · exact Or.inl rfl

theorem partsLe_total : ∀ u v : List String, partsLe u v = true ∨ partsLe v u = true
  | [], _ => Or.inl rfl
  | _ :: _, [] => Or.inr rfl
  | a :: as, b :: bs => by
    rcases str_trichotomy a b with h | h | h
    · exact Or.inl (by simp [partsLe, h])
    · subst h
      rcases partsLe_total as bs with ih | ih
      · exact Or.inl (by simp [partsLe, strLt_irrefl, ih])
      · exact Or.inr (by simp [partsLe, strLt_irrefl, ih])
    · exact Or.inr (by simp [partsLe, h])

theorem partsLe_trans : ∀ u v w : List String,
    partsLe u v = true → partsLe v w = true → partsLe u w = true
  | [], _, _, _, _ => rfl
  | _ :: _, [], _, h, _ => by simp [partsLe] at h
  | _ :: _, _ :: _, [], _, h => by simp [partsLe] at h
  | a :: as, b :: bs, c :: cs, h1, h2 => by
    simp only [partsLe] at h1 h2 ⊢
    rcases str_trichotomy a b with hab | hab | hab
    · rcases str_trichotomy b c with hbc | hbc | hbc
      · simp [strLt_trans hab hbc]
      · subst hbc; simp [hab]
      · simp [strLt_asymm_false hbc, hbc] at h2
    · subst hab
      rcases str_trichotomy a c with hac | hac | hac
      · simp [hac]
      · subst hac
        simp only [strLt_irrefl, Bool.false_eq_true, if_false, reduceIte] at h1 h2 ⊢
        exact partsLe_trans as bs cs h1 h2
      · simp [strLt_asymm_false hac, hac] at h2
    · simp [strLt_asymm_false hab, hab] at h1

theorem partsLe_antisymm : ∀ u v : List String,
    partsLe u v = true → partsLe v u = true → u = v
  | [], [], _, _ => rfl
  | [], _ :: _, _, h => by simp [partsLe] at h
  | _ :: _, [], h, _ => by simp [partsLe] at h
  | a :: as, b :: bs, h1, h2 => by
    rcases str_trichotomy a b with h | h | h
    · simp [partsLe, strLt_asymm_false h, h] at h2
    · subst h
      simp only [partsLe, strLt_irrefl, Bool.false_eq_true, if_false, reduceIte] at h1 h2
      rw [partsLe_antisymm as bs h1 h2]
    · simp [partsLe, strLt_asymm_false h, h] at h1

theorem partsLt_irrefl : ∀ u : List String, partsLt u u = false
  | [] => rfl
  | a :: as => by simp [partsLt, strLt_irrefl, partsLt_irrefl as]

theorem partsLt_le : ∀ u v : List String, partsLt u v = true → partsLe u v = true
  | [], _, _ => rfl
  | _ :: _, [], h => by simp [partsLt] at h
  | a :: as, b :: bs, h => by
    simp only [partsLt] at h
    simp only [partsLe]
    rcases str_trichotomy a b with hab | hab | hab
    · simp [hab]
    · subst hab
      simp only [strLt_irrefl, Bool.false_eq_true, if_false, reduceIte] at h ⊢
      exact partsLt_le as bs h
    · simp [strLt_asymm_false hab, hab] at h

theorem partsLt_asymm {u v : List String} (h1 : partsLt u v = true)
    (h2 : partsLt v u = true) : False := by
  have huv := partsLe_antisymm u v (partsLt_le _ _ h1) (partsLt_le _ _ h2)
  rw [huv, partsLt_irrefl] at h1
  cases h1

theorem partsLe_eq_not_partsLt : ∀ u v : List String, partsLe u v = !partsLt v u
  | [], [] => rfl
  | [], _ :: _ => rfl
  | _ :: _, [] => rfl
  | a :: as, b :: bs => by
    simp only [partsLe, partsLt]
    rcases str_trichotomy a b with h | h | h
    · simp [h, strLt_asymm_false h]
    · subst h
      simp only [strLt_irrefl, Bool.false_eq_true, if_false, reduceIte]
      exact partsLe_eq_not_partsLt as bs
    · simp [h, strLt_asymm_false h]

/-- Non-strict tuple comparison plus distinctness gives the strict one. -/
theorem partsLe_ne_lt {u v : List String} (hle : partsLe u v = true) (hne : u ≠ v) :
    partsLt u v = true := by
  cases hlt : partsLt u v
  · have hvu : partsLe v u = true := by
      rw [partsLe_eq_not_partsLt, hlt]; rfl
    exact absurd (partsLe_antisymm _ _ hle hvu) hne
  · rfl

/-- The canonical strict lexicographic order on component tuples: Mathlib
`List.Lex` over the canonical code-point order on each component. -/
def pathLex (u v : List String) : Prop :=
  List.Lex (fun a b : String => List.lt a.data b.data) u v

/-- `partsLt` is exactly the canonical lexicographic order on the tuples. -/
theorem partsLt_iff : ∀ u v : List String, partsLt u v = true ↔ pathLex u v
  | [], [] => by
    constructor
    · intro h; simp [partsLt] at h
    · intro h; cases h
  | [], _ :: _ => ⟨fun _ => List.Lex.nil, fun _ => rfl⟩
  | _ :: _, [] => by
    constructor
    · intro h; simp [partsLt] at h
    · intro h; cases h
  | a :: as, b :: bs => by
    simp only [partsLt]
    rcases str_trichotomy a b with h | h | h
    · rw [if_pos h]
      exact iff_of_true rfl (List.Lex.rel ((lexLt_iff _ _).mp h))
    · subst h
      simp only [strLt_irrefl, Bool.false_eq_true, if_false, reduceIte]
      constructor
      · intro hh
        exact List.Lex.cons ((partsLt_iff as bs).mp hh)
      · intro hh
        cases hh with
        | cons h1 => exact (partsLt_iff as bs).mpr h1
        | rel h1 =>
          have h2 := (lexLt_iff _ _).mpr h1
          rw [lexLt_irrefl] at h2
          cases h2
    · rw [if_neg (by simp [strLt_asymm_false h]), if_pos h]
      constructor
      · intro hh; exact absurd hh (by simp)
      · intro hh
        cases hh with
        | cons h1 =>
          rw [strLt_irrefl] at h
          cases h
        | rel h1 => exact ((lexLt_asymm ((lexLt_iff _ _).mpr h1) h)).elim

/-- Prepending a shared component (such as the root components common to
every absolute candidate path) never changes the tuple comparison. -/
theorem partsLe_cons_same (x : String) (u v : List String) :
    partsLe (x :: u) (x :: v) = partsLe u v := by
  simp [partsLe, strLt_irrefl]

theorem sortedCandidates_perm (tree : List FileEntry) (exts : List String) :
    (sortedCandidates tree exts).Perm (collectFiles tree exts) :=
  List.perm_insertionSort _ _

theorem sortedCandidates_sorted (tree : List FileEntry) (exts : List String) :
    (sortedCandidates tree exts).Sorted
      (fun a b => partsLe a.parts b.parts = true) := by
  haveI : IsTotal FileEntry (fun a b => partsLe a.parts b.parts = true) :=
    ⟨fun a b => partsLe_total _ _⟩
  haveI : IsTrans FileEntry (fun a b => partsLe a.parts b.parts = true) :=
    ⟨fun _ _ _ hab hbc => partsLe_trans _ _ _ hab hbc⟩
  exact List.sorted_insertionSort _ _

theorem sortedCandidates_pairwise_lt (tree : List FileEntry) (exts : List String)
    (hnd : ((collectFiles tree exts).map FileEntry.parts).Nodup) :
    (sortedCandidates tree exts).Pairwise (fun a b => pathLex a.parts b.parts) := by
  have hperm := sortedCandidates_perm tree exts
  have hnd1 : ((sortedCandidates tree exts).map FileEntry.parts).Nodup :=
    ((hperm.map FileEntry.parts).nodup_iff).mpr hnd
  have hne : (sortedCandidates tree exts).Pairwise (fun a b => a.parts ≠ b.parts) :=
    List.pairwise_map.mp hnd1
  exact ((sortedCandidates_sorted tree exts).and hne).imp
    fun hab => (partsLt_iff _ _).mp (partsLe_ne_lt hab.1 hab.2)

/-- C4 (counterexample): CPython orders `Path`s by their component tuples,
not by the full path string. With the files `a.py` and `a/d.py`, the sort
puts `a/d.py` first — the tuple `("a", "d.py")` precedes `("a.py")` because
`"a" < "a.py"` — although the full path string `/r/a.py` is ordinally
smaller than `/r/a/d.py` (`.` has a lower code point than `/`). So at
positions 0 and 1 the claimed equivalence with ordinal full-path-string
order fails. -/
theorem C4_counterexample :
    sortedCandidates
        [⟨[("a.py")], some [104], Except.ok ("x")⟩,
         ⟨[("a"), ("d.py")], some [104], Except.ok ("y")⟩] [(".py")] =
      [⟨[("a"), ("d.py")], some [104], Except.ok ("y")⟩,
       ⟨[("a.py")], some [104], Except.ok ("x")⟩] ∧
    ¬(0 < 1 ↔
      List.lt
        (fullPath ("/r") ((sortedCandidates
          [⟨[("a.py")], some [104], Except.ok ("x")⟩,
           ⟨[("a"), ("d.py")], some [104], Except.ok ("y")⟩] [(".py")]).get
            ⟨0, by decide⟩)).data
        (fullPath ("/r") ((sortedCandidates
          [⟨[("a.py")], some [104], Except.ok ("x")⟩,
           ⟨[("a"), ("d.py")], some [104], Except.ok ("y")⟩] [(".py")]).get
            ⟨1, by decide⟩)).data) := by
  refine ⟨by decide, fun hiff => ?_⟩
  have h1 := hiff.mp (by decide)
  have h2 := (lexLt_iff _ _).mpr h1
  exact absurd h2 (by decide)

/-- C4 (amended): the candidates are emitted in ascending CPython `Path`
order: position `i` precedes position `j` in the sorted candidate list iff
the component tuple of candidate `i` is smaller in the canonical
lexicographic tuple order `pathLex`, whose components are compared by plain
code-point string comparison — no case folding on POSIX and nothing
locale-dependent anywhere. This agrees with ordinal full-path-string order
except where a directory boundary meets characters sorting below the
separator, as in the counterexample. Distinct candidates have distinct
component tuples, as in a real file system. -/
theorem C4_emission_order (tree : List FileEntry) (exts : List String)
    (hnd : ((collectFiles tree exts).map FileEntry.parts).Nodup) :
    ∀ i j (hi : i < (sortedCandidates tree exts).length)
      (hj : j < (sortedCandidates tree exts).length),
      i < j ↔
        pathLex ((sortedCandidates tree exts).get ⟨i, hi⟩).parts
          ((sortedCandidates tree exts).get ⟨j, hj⟩).parts := by
  intro i j hi hj
  have hfwd := List.pairwise_iff_get.mp (sortedCandidates_pairwise_lt tree exts hnd)
  constructor
  · exact fun hij => hfwd ⟨i, hi⟩ ⟨j, hj⟩ hij
  · intro hlt
    rcases Nat.lt_trichotomy i j with h | h | h
    · exact h
    · subst h
      have h2 := (partsLt_iff _ _).mpr hlt
      rw [partsLt_irrefl] at h2
      cases h2
    · exact absurd ((partsLt_iff _ _).mpr hlt)
        (fun hc => partsLt_asymm hc ((partsLt_iff _ _).mpr (hfwd ⟨j, hj⟩ ⟨i, hi⟩ h)))

/-- C4 witness: in the counterexample tree, `a/d.py` at position 0 indeed
precedes `a.py` at position 1 in the tuple order. -/
theorem C4_emission_order_witness :
    pathLex ((sortedCandidates
        [⟨[("a.py")], some [104], Except.ok ("x")⟩,
         ⟨[("a"), ("d.py")], some [104], Except.ok ("y")⟩] [(".py")]).get
          ⟨0, by decide⟩).parts
      ((sortedCandidates
        [⟨[("a.py")], some [104], Except.ok ("x")⟩,
         ⟨[("a"), ("d.py")], some [104], Except.ok ("y")⟩] [(".py")]).get
          ⟨1, by decide⟩).parts :=
  (C4_emission_order
      [⟨[("a.py")], some [104], Except.ok ("x")⟩,
       ⟨[("a"), ("d.py")], some [104], Except.ok ("y")⟩] [(".py")] (by decide)
      0 1 (by decide) (by decide)).mp (by decide)

theorem eq_of_perm_of_sorted_key {α : Type} (key : α → List String) :
    ∀ {l₁ l₂ : List α}, l₁.Perm l₂ →
      l₁.Sorted (fun a b => partsLe (key a) (key b) = true) →
      l₂.Sorted (fun a b => partsLe (key a) (key b) = true) →
      (l₁.map key).Nodup → l₁ = l₂ := by
  intro l₁
  induction l₁ with
  | nil =>
    intro l₂ hp _ _ _
    exact hp.nil_eq
  | cons a t ih =>
    intro l₂ hp hs₁ hs₂ hnd
    cases l₂ with
    | nil => exact absurd hp.eq_nil (by simp)
    | cons b s =>
      obtain ⟨ha1, hs₁t⟩ := List.sorted_cons.mp hs₁
      obtain ⟨hb1, hs₂t⟩ := List.sorted_cons.mp hs₂
      have hmem_b : b ∈ a :: t := hp.mem_iff.mpr (List.mem_cons_self b s)
      have hmem_a : a ∈ b :: s := hp.mem_iff.mp (List.mem_cons_self a t)
      have hab : a = b := by
        by_contra hne
        have hb_t : b ∈ t := by
          rcases List.mem_cons.mp hmem_b with h | h
          · exact absurd h.symm hne
          · exact h
        have ha_s : a ∈ s := by
          rcases List.mem_cons.mp hmem_a with h | h
          · exact absurd h hne
          · exact h
        have hkey : key a = key b :=
          partsLe_antisymm _ _ (ha1 b hb_t) (hb1 a ha_s)
        rw [List.map_cons] at hnd
        exact (List.nodup_cons.mp hnd).1 (hkey ▸ List.mem_map_of_mem key hb_t)
      subst hab
      have hndt : (t.map key).Nodup := by
        rw [List.map_cons] at hnd
        exact (List.nodup_cons.mp hnd).2
      rw [ih hp.cons_inv hs₁t hs₂t hndt]

/-- C5: determinism — two runs over the same input tree (the same files,
possibly enumerated by `os.walk` in different orders) with the same filter
configuration produce the same return value and byte-identical output and
diagnostic streams. File path strings are assumed distinct, as they are in
any real file system. -/
theorem C5_deterministic_output (dirExists dirIsDir : Bool) (dir : String) (og : Bool)
    (tree1 tree2 : List FileEntry) (extensions : Option (List String))
    (hperm : tree1.Perm tree2)
    (hnd : (tree1.map (fullPath dir)).Nodup) :
    concatenate_files dirExists dirIsDir dir og tree1 extensions =
      concatenate_files dirExists dirIsDir dir og tree2 extensions := by
  have hmap : tree1.map (fullPath dir) =
      (tree1.map FileEntry.parts).map (fun ps => dir ++ "/" ++ relStr ps) := by
    rw [List.map_map]
    rfl
  have hndp : (tree1.map FileEntry.parts).Nodup :=
    List.Nodup.of_map _ (hmap ▸ hnd)
  have hc : (collectFiles tree1 (effectiveExts extensions)).Perm
      (collectFiles tree2 (effectiveExts extensions)) := hperm.filter _
  have hnd1 : ((collectFiles tree1 (effectiveExts extensions)).map
      FileEntry.parts).Nodup :=
    List.Sublist.nodup ((List.filter_sublist tree1).map FileEntry.parts) hndp
  have hsp : (sortedCandidates tree1 (effectiveExts extensions)).Perm
      (sortedCandidates tree2 (effectiveExts extensions)) :=
    ((sortedCandidates_perm tree1 _).trans hc).trans
      (sortedCandidates_perm tree2 _).symm
  have hnds : ((sortedCandidates tree1 (effectiveExts extensions)).map
      FileEntry.parts).Nodup :=
    (((sortedCandidates_perm tree1 _).map FileEntry.parts).nodup_iff).mpr hnd1
  have heq : sortedCandidates tree1 (effectiveExts extensions) =
      sortedCandidates tree2 (effectiveExts extensions) :=
    eq_of_perm_of_sorted_key FileEntry.parts hsp
      (sortedCandidates_sorted tree1 _) (sortedCandidates_sorted tree2 _) hnds
  cases dirExists <;> cases dirIsDir <;> simp [concatenate_files, heq]

/-- C5 witness. -/
theorem C5_deterministic_output_witness :
    concatenate_files true true ("/r") true
        [⟨[("b.py")], some [104], Except.ok ("y")⟩,
         ⟨[("a.py")], some [104], Except.ok ("x")⟩] (some [(".py")]) =
      concatenate_files true true ("/r") true
        [⟨[("a.py")], some [104], Except.ok ("x")⟩,
         ⟨[("b.py")], some [104], Except.ok ("y")⟩] (some [(".py")]) :=
  C5_deterministic_output true true ("/r") true
    [⟨[("b.py")], some [104], Except.ok ("y")⟩,
     ⟨[("a.py")], some [104], Except.ok ("x")⟩]
    [⟨[("a.py")], some [104], Except.ok ("x")⟩,
     ⟨[("b.py")], some [104], Except.ok ("y")⟩] (some [(".py")])
    (List.Perm.swap _ _ _) (by decide)

theorem emitLoop_append (dir : String) (total : Nat) (l1 l2 : List FileEntry) :
    ∀ i, emitLoop dir total i (l1 ++ l2) =
      ((emitLoop dir total i l1).1 ++ (emitLoop dir total (i + l1.length) l2).1,
       (emitLoop dir total i l1).2 ++ (emitLoop dir total (i + l1.length) l2).2) := by
  induction l1 with
  | nil =>
    intro i
    simp [emitLoop]
  | cons f rest ih =>
    intro i
    have harith : i + (rest.length + 1) = i + 1 + rest.length := by omega
    simp only [List.cons_append, emitLoop, List.append_eq, ih (i + 1), List.length_cons,
      harith, List.append_assoc]

/-- C8: when the read of a candidate fails, the loop emits a warning naming
the absolute file path and the error text, and continues: the output stream
is the output of the preceding candidates, then the bare header line of the
failed file, then
exactly the output the remaining candidates produce — no candidate after the
bad one is lost. -/
theorem C8_bad_file_does_not_abort (dir : String) (total i : Nat)
    (l1 l2 : List FileEntry) (f : FileEntry) (e : String)
    (h : f.text = Except.error e) :
    ("Warning: Could not process " ++ fullPath dir f ++ ": " ++ e) ∈
      (emitLoop dir total i (l1 ++ f :: l2)).2 ∧
    (emitLoop dir total i (l1 ++ f :: l2)).1 =
      (emitLoop dir total i l1).1 ++
        (headerFor f.parts ++ "\n") :: (emitLoop dir total (i + l1.length + 1) l2).1 := by
  have hstep : processFile dir f =
      ([headerFor f.parts ++ "\n"],
       some ("Warning: Could not process " ++ fullPath dir f ++ ": " ++ e)) := by
    simp [processFile, h]
  rw [emitLoop_append]
  constructor
  · apply List.mem_append_right
    simp [emitLoop, hstep]
  · simp [emitLoop, hstep]

/-- C8 witness. -/
theorem C8_bad_file_does_not_abort_witness :
    ("Warning: Could not process /r/bad.py: Permission denied") ∈
      (emitLoop ("/r") 3 1
        [⟨[("a.py")], some [104], Except.ok ("x")⟩,
         ⟨[("bad.py")], some [104], Except.error ("Permission denied")⟩,
         ⟨[("c.py")], some [104], Except.ok ("z")⟩]).2 ∧
    (emitLoop ("/r") 3 1
        [⟨[("a.py")], some [104], Except.ok ("x")⟩,
         ⟨[("bad.py")], some [104], Except.error ("Permission denied")⟩,
         ⟨[("c.py")], some [104], Except.ok ("z")⟩]).1 =
      (emitLoop ("/r") 3 1 [⟨[("a.py")], some [104], Except.ok ("x")⟩]).1 ++
        (headerFor [("bad.py")] ++ "\n") ::
          (emitLoop ("/r") 3 3 [⟨[("c.py")], some [104], Except.ok ("z")⟩]).1 := by
  have h := C8_bad_file_does_not_abort ("/r") 3 1
    [⟨[("a.py")], some [104], Except.ok ("x")⟩]
    [⟨[("c.py")], some [104], Except.ok ("z")⟩]
    ⟨[("bad.py")], some [104], Except.error ("Permission denied")⟩
    ("Permission denied") rfl
  exact ⟨by simpa using h.1, by simpa using h.2⟩

end Concat
